import Mathlib

/-!
Shallow embedding of `src/app.py`, a single-file class/attendance record
manager backed by a document store (five collections: courses, classes,
class_students, lesson_logs, attendance) and a blob storage.

Modelling conventions:
* A Firestore document is a structure with an `id : Nat` field; the
  auto-generated document ids of `collection.document()` are abstracted as a
  monotone counter `Store.nextId` (fresh ids).
* Firestore `stream()` results are the Lean list in store order; the code's
  `docs[0]` is `List.head?` of the filtered list.
* Timestamps (`now_kst_iso()`) are opaque strings passed in as `now`.
* `ref.set(data, merge=True)` on an existing document is modelled as a record
  update writing exactly the keys of `data` (so `created_at` is preserved).
* `batch.delete`/`batch.commit` sequences are modelled by `batched_delete`,
  which chunks the reference list by 490 as the source does.
-/

/-! ## Python string primitives

The source manipulates Python `str` values with `.strip()`, `.upper()`,
`.lower()`, `.endswith(..)` and `.replace(..)`. They are modelled here over
the character list of the string (Lean's own `String.trim` etc. are not
kernel-computable); `.upper()`/`.lower()` are modelled on ASCII, which covers
every string the program compares case-insensitively. -/

def pyIsSpace (c : Char) : Bool :=
  c = ' ' || c = '\t' || c = '\n' || c = '\r' || c = '\x0b' || c = '\x0c'

/-- Python `str.strip()`. -/
def pyStrip (s : String) : String :=
  ⟨((s.data.dropWhile pyIsSpace).reverse.dropWhile pyIsSpace).reverse⟩

def pyCharUpper (c : Char) : Char :=
  if 'a' ≤ c && c ≤ 'z' then Char.ofNat (c.toNat - 32) else c

def pyCharLower (c : Char) : Char :=
  if 'A' ≤ c && c ≤ 'Z' then Char.ofNat (c.toNat + 32) else c

/-- Python `str.upper()` (ASCII). -/
def pyUpper (s : String) : String := ⟨s.data.map pyCharUpper⟩

/-- Python `str.lower()` (ASCII). -/
def pyLower (s : String) : String := ⟨s.data.map pyCharLower⟩

/-- Python `str.endswith(t)`. -/
def pyEndsWith (s t : String) : Bool :=
  s.data.reverse.take t.data.length == t.data.reverse

/-- Python `str.replace(pat, rep)` for a single-character pattern (the only
form the source uses). -/
def pyReplaceChar (pat rep : Char) (s : String) : String :=
  ⟨s.data.map (fun c => if c = pat then rep else c)⟩

def ATTENDANCE_CHOICES : List String := ["P", "A", "L", "E", "U"]

/-- A Streamlit `UploadedFile` as `validate_pdf`/`upload_pdf` observe it:
its `.name`, its `.type` (MIME), and its buffer length in bytes. -/
structure UploadedFile where
  name : String
  mime : String
  size : Nat
deriving DecidableEq

/-- `validate_pdf` of app.py: checks the MIME type, then the byte size. -/
def validate_pdf : Option UploadedFile → Bool × String
  | none => (false, "파일을 선택해 주세요.")
  | some f =>
      if !pyEndsWith f.mime "/pdf" && f.mime != "application/pdf" then
        (false, "PDF 파일만 업로드 가능합니다.")
      else if f.size > 10 * 1024 * 1024 then
        (false, "파일 크기는 10MB 이하여야 합니다.")
      else
        (true, "OK")

/-- `safe_filename` of app.py. -/
def safe_filename (name : String) : String :=
  pyStrip (pyReplaceChar '\\' '_' (pyReplaceChar '/' '_' name))

/-- The storage path `upload_pdf` writes to. -/
def pdf_storage_path (year semester : Int) (subject_name : String) (ts : Nat)
    (fname : String) : String :=
  "plans/" ++ toString year ++ "/" ++ toString semester ++ "/" ++
    safe_filename subject_name ++ "/" ++ toString ts ++ "_" ++ safe_filename fname

/-- `upload_pdf` of app.py: validates, raising (`.error`) before any storage
write; on success performs the single storage write and returns the path. -/
def upload_pdf (f : Option UploadedFile) (year semester : Int)
    (subject_name : String) (ts : Nat) : Except String String :=
  match validate_pdf f with
  | (false, msg) => .error msg
  | (true, _) =>
      match f with
      | some g => .ok (pdf_storage_path year semester subject_name ts g.name)
      | none => .ok (pdf_storage_path year semester subject_name ts (toString ts ++ ".pdf"))

/-- Modelled from the spec: "accept only a file whose name ends in a
case-insensitive .pdf and whose size is ≤ 10,485,760 bytes"; the code's
acceptance condition is to be compared against this one. -/
def spec_pdf_accepts (f : UploadedFile) : Bool :=
  pyEndsWith (pyLower f.name) ".pdf" && f.size ≤ 10485760

/-! ## The five document collections -/

structure CourseDoc where
  id : Nat
  year : Int
  semester : Int
  subject_name : String
  storage_path : Option String
  file_size : Option Nat
  created_at : String
  updated_at : String
deriving DecidableEq

structure ClassDoc where
  id : Nat
  course_id : Nat
  class_label : String
  year : Int
  semester : Int
  schedule : Option (List (String × Int))
  created_at : String
  updated_at : String
deriving DecidableEq

structure StudentDoc where
  id : Nat
  class_id : Nat
  student_no : String
  name : String
  created_at : String
  updated_at : String
deriving DecidableEq

structure LessonDoc where
  id : Nat
  class_id : Nat
  date : String
  period : Int
  progress : String
  note : String
  created_at : String
  updated_at : String
deriving DecidableEq

structure AttDoc where
  id : Nat
  class_id : Nat
  date : String
  period : Int
  student_id : Nat
  status : String
  remark : String
  created_at : String
  updated_at : String
deriving DecidableEq

/-- The whole Firestore state, plus the fresh-id counter. -/
structure Store where
  courses : List CourseDoc
  classes : List ClassDoc
  class_students : List StudentDoc
  lesson_logs : List LessonDoc
  attendance : List AttDoc
  nextId : Nat
deriving DecidableEq

def emptyStore : Store := ⟨[], [], [], [], [], 0⟩

/-! ## Batched deletes (`batched_delete` of app.py) -/

/-- A document reference, as passed to `batch.delete`. -/
inductive Ref where
  | course (id : Nat)
  | cls (id : Nat)
  | student (id : Nat)
  | lessonLog (id : Nat)
  | att (id : Nat)
deriving DecidableEq

/-- Deleting one referenced document. -/
def deleteRef (s : Store) : Ref → Store
  | .course i => { s with courses := s.courses.filter (fun d => d.id != i) }
  | .cls i => { s with classes := s.classes.filter (fun d => d.id != i) }
  | .student i => { s with class_students := s.class_students.filter (fun d => d.id != i) }
  | .lessonLog i => { s with lesson_logs := s.lesson_logs.filter (fun d => d.id != i) }
  | .att i => { s with attendance := s.attendance.filter (fun d => d.id != i) }

/-- Split a list into chunks of `n` (the source iterates `range(0, len, 490)`). -/
def chunksOf (n : Nat) (l : List α) : List (List α) :=
  match l, n with
  | [], _ => []
  | l, 0 => [l]
  | a :: t, Nat.succ m => (a :: t).take (m + 1) :: chunksOf (m + 1) ((a :: t).drop (m + 1))
termination_by l.length
decreasing_by
  simp only [List.length_drop, List.length_cons]
  omega

/-- One committed delete batch. -/
def commitDeleteBatch (s : Store) (refs : List Ref) : Store :=
  refs.foldl deleteRef s

/-- `batched_delete` of app.py: chunks of 490, one commit per chunk. -/
def batched_delete (s : Store) (doc_refs : List Ref) : Store :=
  (chunksOf 490 doc_refs).foldl commitDeleteBatch s

/-! ## Courses DAO -/

/-- `get_course_by_unique` of app.py: first document matching
(year, semester, stripped subject name). -/
def get_course_by_unique (s : Store) (year semester : Int) (subject_name : String) :
    Option CourseDoc :=
  (s.courses.filter (fun d =>
    d.year == year && d.semester == semester && d.subject_name == pyStrip subject_name)).head?

/-- Python truthiness of the `pdf_path` argument (`if pdf_path:`). -/
def pdf_provided : Option String → Bool
  | none => false
  | some p => p != ""

/-- `create_or_update_course` of app.py. Returns (document id, new store). -/
def create_or_update_course (s : Store) (year semester : Int) (subject_name : String)
    (pdf_path : Option String) (now : String) : Nat × Store :=
  match get_course_by_unique s year semester subject_name with
  | some existing =>
      (existing.id,
       { s with courses := s.courses.map (fun d =>
           if d.id == existing.id then
             (let d := { d with year := year, semester := semester,
                                subject_name := pyStrip subject_name, updated_at := now }
              if pdf_provided pdf_path then
                { d with storage_path := pdf_path, file_size := none }
              else d)
           else d) })
  | none =>
      (s.nextId,
       { s with
          courses := s.courses ++ [{
            id := s.nextId, year := year, semester := semester,
            subject_name := pyStrip subject_name,
            storage_path := if pdf_provided pdf_path then pdf_path else none,
            file_size := if pdf_provided pdf_path then none else none,
            created_at := now, updated_at := now }],
          nextId := s.nextId + 1 })

/-- The ordered reference list `delete_course` builds: all class documents of
the course, then each class's students, lesson logs and attendance, and the
course document appended LAST. -/
def delete_course_refs (s : Store) (course_id : Nat) : List Ref :=
  let class_ids := (s.classes.filter (fun k => k.course_id == course_id)).map (fun k => k.id)
  class_ids.map Ref.cls
  ++ class_ids.foldl (fun acc cid =>
       acc
       ++ (s.class_students.filter (fun d => d.class_id == cid)).map (fun d => Ref.student d.id)
       ++ (s.lesson_logs.filter (fun d => d.class_id == cid)).map (fun d => Ref.lessonLog d.id)
       ++ (s.attendance.filter (fun d => d.class_id == cid)).map (fun d => Ref.att d.id)) []
  ++ [Ref.course course_id]

/-- `delete_course` of app.py: early return when the course document does not
exist, else the cascade. (The storage-blob delete is outside the document
store and not modelled.) -/
def delete_course (s : Store) (course_id : Nat) : Store :=
  match s.courses.find? (fun d => d.id == course_id) with
  | none => s
  | some _ => batched_delete s (delete_course_refs s course_id)

/-! ## Classes DAO -/

/-- `create_or_update_class` of app.py. -/
def create_or_update_class (s : Store) (course_id : Nat) (class_label : String)
    (year semester : Int) (schedule : Option (List (String × Int)))
    (class_id : Option Nat) (now : String) : Nat × Store :=
  match class_id with
  | some cid =>
      (cid,
       { s with classes := s.classes.map (fun d =>
           if d.id == cid then
             (let d1 := { d with course_id := course_id, class_label := pyStrip class_label,
                                 year := year, semester := semester, updated_at := now }
              match schedule with
              | some sch => { d1 with schedule := some sch }
              | none => d1)
           else d) })
  | none =>
      (s.nextId,
       { s with
          classes := s.classes ++ [{
            id := s.nextId, course_id := course_id, class_label := pyStrip class_label,
            year := year, semester := semester, schedule := schedule,
            created_at := now, updated_at := now }],
          nextId := s.nextId + 1 })

/-- The ordered reference list `delete_class` builds: the class document is
appended FIRST, then the matching students, lesson logs and attendance. -/
def delete_class_refs (s : Store) (class_id : Nat) : List Ref :=
  [Ref.cls class_id]
  ++ (s.class_students.filter (fun d => d.class_id == class_id)).map (fun d => Ref.student d.id)
  ++ (s.lesson_logs.filter (fun d => d.class_id == class_id)).map (fun d => Ref.lessonLog d.id)
  ++ (s.attendance.filter (fun d => d.class_id == class_id)).map (fun d => Ref.att d.id)

/-- `delete_class` of app.py. -/
def delete_class (s : Store) (class_id : Nat) : Store :=
  batched_delete s (delete_class_refs s class_id)

/-! ## Students DAO -/

/-- `get_student_by_no` of app.py. -/
def get_student_by_no (s : Store) (class_id : Nat) (student_no : String) :
    Option StudentDoc :=
  (s.class_students.filter (fun d =>
    d.class_id == class_id && d.student_no == pyStrip student_no)).head?

/-- `create_or_update_student` of app.py. -/
def create_or_update_student (s : Store) (class_id : Nat) (student_no name : String)
    (student_id : Option Nat) (now : String) : Nat × Store :=
  match student_id with
  | some sid =>
      (sid,
       { s with class_students := s.class_students.map (fun d =>
           if d.id == sid then
             { d with class_id := class_id, student_no := pyStrip student_no,
                      name := pyStrip name, updated_at := now }
           else d) })
  | none =>
      (s.nextId,
       { s with
          class_students := s.class_students ++
            [⟨s.nextId, class_id, pyStrip student_no, pyStrip name, now, now⟩],
          nextId := s.nextId + 1 })

/-- The ordered reference list `delete_student` builds: the student document
first, then that student's attendance records. -/
def delete_student_refs (s : Store) (student_id : Nat) : List Ref :=
  [Ref.student student_id]
  ++ (s.attendance.filter (fun d => d.student_id == student_id)).map (fun d => Ref.att d.id)

/-- `delete_student` of app.py. -/
def delete_student (s : Store) (student_id : Nat) : Store :=
  batched_delete s (delete_student_refs s student_id)

/-! ## Lesson logs DAO -/

/-- The (class, date, period) composite key of a lesson log. -/
def lesson_key (class_id : Nat) (date : String) (period : Int) (d : LessonDoc) : Bool :=
  d.class_id == class_id && d.date == date && d.period == period

/-- `get_lesson_log_unique` of app.py: first document matching the key. -/
def get_lesson_log_unique (s : Store) (class_id : Nat) (date : String) (period : Int) :
    Option LessonDoc :=
  (s.lesson_logs.filter (lesson_key class_id date period)).head?

/-- `create_or_update_lesson_log` of app.py. -/
def create_or_update_lesson_log (s : Store) (class_id : Nat) (date : String)
    (period : Int) (progress : String) (note : String) (now : String) : Nat × Store :=
  match get_lesson_log_unique s class_id date period with
  | some existing =>
      (existing.id,
       { s with lesson_logs := s.lesson_logs.map (fun d =>
           if d.id == existing.id then
             { d with class_id := class_id, date := date, period := period,
                      progress := pyStrip progress, note := pyStrip note, updated_at := now }
           else d) })
  | none =>
      (s.nextId,
       { s with
          lesson_logs := s.lesson_logs ++
            [⟨s.nextId, class_id, date, period, pyStrip progress, pyStrip note, now, now⟩],
          nextId := s.nextId + 1 })

/-! ## Attendance DAO -/

/-- The (class, date, period, student) composite key of an attendance record. -/
def att_key (class_id : Nat) (date : String) (period : Int) (student_id : Nat)
    (d : AttDoc) : Bool :=
  d.class_id == class_id && d.date == date && d.period == period && d.student_id == student_id

/-- `get_attendance_unique` of app.py: first document matching the key. -/
def get_attendance_unique (s : Store) (class_id : Nat) (date : String) (period : Int)
    (student_id : Nat) : Option AttDoc :=
  (s.attendance.filter (att_key class_id date period student_id)).head?

/-- The status normalisation inside `set_attendance`:
`status = (status or "U").strip().upper()`, then membership in
ATTENDANCE_CHOICES with fallback "U". -/
def normalize_status (status : Option String) : String :=
  let raw := match status with
    | none => "U"
    | some x => if x = "" then "U" else x
  let v := pyUpper (pyStrip raw)
  if v ∈ ATTENDANCE_CHOICES then v else "U"

/-- `set_attendance` of app.py. -/
def set_attendance (s : Store) (class_id : Nat) (date : String) (period : Int)
    (student_id : Nat) (status : Option String) (remark : String) (now : String) :
    Nat × Store :=
  let st := normalize_status status
  match get_attendance_unique s class_id date period student_id with
  | some existing =>
      (existing.id,
       { s with attendance := s.attendance.map (fun d =>
           if d.id == existing.id then
             { d with class_id := class_id, date := date, period := period,
                      student_id := student_id, status := st,
                      remark := pyStrip remark, updated_at := now }
           else d) })
  | none =>
      (s.nextId,
       { s with
          attendance := s.attendance ++
            [⟨s.nextId, class_id, date, period, student_id, st, pyStrip remark, now, now⟩],
          nextId := s.nextId + 1 })

/-! ## CSV student import (the loop of `page_students`) -/

structure ImportAcc where
  seen : List String
  batch : List StudentDoc
  next : Nat
deriving DecidableEq

/-- One CSV row of the import loop: skip on blank number/name, skip in-batch
duplicate numbers (the set `seen` is extended before the existence check),
skip numbers already present in the class, else stage a new document. -/
def import_step (s : Store) (class_id : Nat) (now : String) (acc : ImportAcc)
    (row : String × String) : ImportAcc :=
  let sno := pyStrip row.1
  let nm := pyStrip row.2
  if sno = "" || nm = "" then acc
  else if sno ∈ acc.seen then acc
  else
    let acc1 : ImportAcc := { acc with seen := acc.seen ++ [sno] }
    if (get_student_by_no s class_id sno).isSome then acc1
    else
      { acc1 with
         batch := acc1.batch ++ [⟨acc1.next, class_id, sno, nm, now, now⟩],
         next := acc1.next + 1 }

/-- The CSV import of `page_students`: the staged rows are committed with
`batched_set`, which appends the new documents. -/
def import_students (s : Store) (class_id : Nat) (rows : List (String × String))
    (now : String) : Store :=
  let acc := rows.foldl (import_step s class_id now) ⟨[], [], s.nextId⟩
  { s with class_students := s.class_students ++ acc.batch, nextId := acc.next }

/-! ## Bulk per-student attendance apply (the popover of `page_attendance`) -/

/-- The "일괄 적용" handler: for every scheduled period it creates a FRESH
document reference (`collection.document()`) and stages `data` on it; no
lookup of an existing record is done. `batched_set` appends them all. -/
def bulk_apply_attendance (s : Store) (class_id : Nat) (date : String)
    (periods : List Int) (student_id : Nat) (status remark now : String) : Store :=
  let acc := periods.foldl
    (fun (acc : List AttDoc × Nat) p =>
      (acc.1 ++ [⟨acc.2, class_id, date, p, student_id, status, remark, now, now⟩],
       acc.2 + 1))
    ([], s.nextId)
  { s with attendance := s.attendance ++ acc.1, nextId := acc.2 }

/-! ## Well-formedness of the lesson-log collection -/

/-- Document ids are pairwise distinct and below the fresh-id counter
(Firestore guarantees distinct document ids within a collection). -/
def WFlogs (s : Store) : Prop :=
  (s.lesson_logs.map (fun d => d.id)).Nodup ∧ ∀ d ∈ s.lesson_logs, d.id < s.nextId

/-- Iterating `create_or_update_lesson_log` with one fixed key:
each call supplies (progress, note, now). -/
def lesson_log_calls (s : Store) (class_id : Nat) (date : String) (period : Int)
    (calls : List (String × String × String)) : Store :=
  calls.foldl
    (fun t c => (create_or_update_lesson_log t class_id date period c.1 c.2.1 c.2.2).2) s

/-! ## Concrete stores used by the concrete theorems below -/

/-- One class (id 1) with one enrolled student (id 2). -/
def storeClassWithStudent : Store :=
  { emptyStore with
      classes := [⟨1, 0, "2-1", 2025, 1, none, "t0", "t0"⟩],
      class_students := [⟨2, 1, "001", "Kim", "t0", "t0"⟩],
      nextId := 3 }

/-- One course (id 1) with one class (id 2) referencing it. -/
def storeCourseWithClass : Store :=
  { emptyStore with
      courses := [⟨1, 2025, 1, "Math", none, none, "t0", "t0"⟩],
      classes := [⟨2, 1, "2-1", 2025, 1, none, "t0", "t0"⟩],
      nextId := 3 }

/-- One course (id 1) and one class (id 2) referencing it, the class holding
a student (id 3), a lesson log (id 4) and an attendance record (id 5). -/
def storeCourseClassChildren : Store :=
  { emptyStore with
      courses := [⟨1, 2025, 1, "Math", none, none, "t0", "t0"⟩],
      classes := [⟨2, 1, "2-1", 2025, 1, none, "t0", "t0"⟩],
      class_students := [⟨3, 2, "001", "Kim", "t0", "t0"⟩],
      lesson_logs := [⟨4, 2, "2025-03-04", 1, "p", "n", "t0", "t0"⟩],
      attendance := [⟨5, 2, "2025-03-04", 1, 3, "P", "", "t0", "t0"⟩],
      nextId := 6 }

/-- One class (id 1) with no students yet. -/
def storeEmptyClass : Store :=
  { emptyStore with
      classes := [⟨1, 0, "2-1", 2025, 1, none, "t0", "t0"⟩],
      nextId := 2 }

/-- One lesson log (id 0) for class 1, 2025-03-04, period 1. -/
def storeOneLessonLog : Store :=
  { emptyStore with
      lesson_logs := [⟨0, 1, "2025-03-04", 1, "old progress", "old note", "t0", "t0"⟩],
      nextId := 1 }

/-- Two students (ids 2 and 3) of class 1, one attendance record each, and
one lesson log. -/
def storeTwoStudents : Store :=
  { emptyStore with
      classes := [⟨1, 0, "2-1", 2025, 1, none, "t0", "t0"⟩],
      class_students := [⟨2, 1, "001", "Kim", "t0", "t0"⟩, ⟨3, 1, "002", "Lee", "t0", "t0"⟩],
      lesson_logs := [⟨4, 1, "2025-03-04", 1, "p", "n", "t0", "t0"⟩],
      attendance := [⟨5, 1, "2025-03-04", 1, 2, "P", "", "t0", "t0"⟩,
                     ⟨6, 1, "2025-03-04", 1, 3, "A", "", "t0", "t0"⟩],
      nextId := 7 }

/-! ## Helper lemmas about batched deletes -/

theorem foldl_chunksOf {α β : Type} (f : β → α → β) (n : Nat) (l : List α) :
    ∀ b : β, (chunksOf n l).foldl (fun acc c => c.foldl f acc) b = l.foldl f b := by
  induction n, l using chunksOf.induct with
  | case1 => intro b; simp [chunksOf]
  | case2 l => intro b; simp [chunksOf]
  | case3 a t m ih =>
      intro b
      rw [chunksOf]
      simp only [List.foldl_cons]
      rw [ih, ← List.foldl_append, List.take_append_drop]
      rfl

/-- Chunked batched deletion has the same final state as deleting the
references one by one, in order. -/
theorem batched_delete_eq_foldl (s : Store) (refs : List Ref) :
    batched_delete s refs = refs.foldl deleteRef s :=
  foldl_chunksOf deleteRef 490 refs s

theorem mem_students_of_foldl_delete {refs : List Ref} {s : Store} {d : StudentDoc}
    (h : d ∈ (refs.foldl deleteRef s).class_students) :
    d ∈ s.class_students ∧ Ref.student d.id ∉ refs := by
  induction refs generalizing s with
  | nil => simpa using h
  | cons r rs ih =>
      rw [List.foldl_cons] at h
      obtain ⟨h1, h2⟩ := ih h
      cases r <;> simp_all [deleteRef, List.mem_filter]

theorem mem_logs_of_foldl_delete {refs : List Ref} {s : Store} {d : LessonDoc}
    (h : d ∈ (refs.foldl deleteRef s).lesson_logs) :
    d ∈ s.lesson_logs ∧ Ref.lessonLog d.id ∉ refs := by
  induction refs generalizing s with
  | nil => simpa using h
  | cons r rs ih =>
      rw [List.foldl_cons] at h
      obtain ⟨h1, h2⟩ := ih h
      cases r <;> simp_all [deleteRef, List.mem_filter]

theorem mem_att_of_foldl_delete {refs : List Ref} {s : Store} {d : AttDoc}
    (h : d ∈ (refs.foldl deleteRef s).attendance) :
    d ∈ s.attendance ∧ Ref.att d.id ∉ refs := by
  induction refs generalizing s with
  | nil => simpa using h
  | cons r rs ih =>
      rw [List.foldl_cons] at h
      obtain ⟨h1, h2⟩ := ih h
      cases r <;> simp_all [deleteRef, List.mem_filter]

theorem mem_classes_of_foldl_delete {refs : List Ref} {s : Store} {d : ClassDoc}
    (h : d ∈ (refs.foldl deleteRef s).classes) :
    d ∈ s.classes ∧ Ref.cls d.id ∉ refs := by
  induction refs generalizing s with
  | nil => simpa using h
  | cons r rs ih =>
      rw [List.foldl_cons] at h
      obtain ⟨h1, h2⟩ := ih h
      cases r <;> simp_all [deleteRef, List.mem_filter]

theorem mem_courses_of_foldl_delete {refs : List Ref} {s : Store} {d : CourseDoc}
    (h : d ∈ (refs.foldl deleteRef s).courses) :
    d ∈ s.courses ∧ Ref.course d.id ∉ refs := by
  induction refs generalizing s with
  | nil => simpa using h
  | cons r rs ih =>
      rw [List.foldl_cons] at h
      obtain ⟨h1, h2⟩ := ih h
      cases r <;> simp_all [deleteRef, List.mem_filter]

/-- Deleting a list of attendance references only filters the attendance
collection, by document id. -/
theorem foldl_delete_att_refs (ids : List Nat) (s : Store) :
    ((ids.map Ref.att).foldl deleteRef s) =
      { s with attendance := s.attendance.filter (fun a => !ids.contains a.id) } := by
  induction ids generalizing s with
  | nil => simp
  | cons i t ih =>
      simp only [List.map_cons, List.foldl_cons, deleteRef]
      rw [ih]
      simp only [List.filter_filter]
      have hpred :
          s.attendance.filter (fun a => !t.contains a.id && (a.id != i)) =
            s.attendance.filter (fun a => !(i :: t).contains a.id) := by
        apply List.filter_congr
        intro a _
        simp only [List.contains_cons, Bool.not_or, bne]
        rw [Bool.and_comm]
      rw [hpred]

/-- C3: deleting a class leaves zero Student, LessonLog and AttendanceRecord
documents whose class reference equals that class, and zero Class documents
with that identifier. -/
theorem delete_class_cascades_completely (s : Store) (cid : Nat) :
    (∀ d ∈ (delete_class s cid).class_students, d.class_id ≠ cid)
    ∧ (∀ d ∈ (delete_class s cid).lesson_logs, d.class_id ≠ cid)
    ∧ (∀ d ∈ (delete_class s cid).attendance, d.class_id ≠ cid)
    ∧ (∀ k ∈ (delete_class s cid).classes, k.id ≠ cid) := by
  rw [delete_class, batched_delete_eq_foldl]
  refine ⟨?_, ?_, ?_, ?_⟩
  · intro d hd heq
    obtain ⟨hmem, hnot⟩ := mem_students_of_foldl_delete hd
    apply hnot
    rw [delete_class_refs]
    have h1 : Ref.student d.id ∈
        (s.class_students.filter (fun x => x.class_id == cid)).map (fun x => Ref.student x.id) :=
      List.mem_map_of_mem _ (List.mem_filter.mpr ⟨hmem, by simpa using heq⟩)
    simp only [List.mem_append]
    tauto
  · intro d hd heq
    obtain ⟨hmem, hnot⟩ := mem_logs_of_foldl_delete hd
    apply hnot
    rw [delete_class_refs]
    have h1 : Ref.lessonLog d.id ∈
        (s.lesson_logs.filter (fun x => x.class_id == cid)).map (fun x => Ref.lessonLog x.id) :=
      List.mem_map_of_mem _ (List.mem_filter.mpr ⟨hmem, by simpa using heq⟩)
    simp only [List.mem_append]
    tauto
  · intro d hd heq
    obtain ⟨hmem, hnot⟩ := mem_att_of_foldl_delete hd
    apply hnot
    rw [delete_class_refs]
    have h1 : Ref.att d.id ∈
        (s.attendance.filter (fun x => x.class_id == cid)).map (fun x => Ref.att x.id) :=
      List.mem_map_of_mem _ (List.mem_filter.mpr ⟨hmem, by simpa using heq⟩)
    simp only [List.mem_append]
    tauto
  · intro k hk heq
    obtain ⟨hmem, hnot⟩ := mem_classes_of_foldl_delete hk
    apply hnot
    rw [delete_class_refs, heq]
    have h1 : Ref.cls cid ∈ [Ref.cls cid] := by simp
    simp only [List.mem_append]
    tauto

/-- C4 (code slip): `delete_class` issues the Class document reference FIRST,
not last: on the store with class 1 and its student 2 the delete sequence is
[class, student], so the class delete precedes the child delete. -/
theorem delete_class_issues_class_ref_first :
    delete_class_refs storeClassWithStudent 1 = [Ref.cls 1, Ref.student 2]
    ∧ (delete_class_refs storeClassWithStudent 1).getLast? ≠ some (Ref.cls 1) := by
  decide

/-- C2 (code slip): one single-cell upsert followed by one bulk per-student
apply on the same (class, date, period, student) key leaves TWO attendance
records for that key — the bulk apply never checks for an existing record. -/
theorem bulk_attendance_apply_duplicates_key :
    ((bulk_apply_attendance
        ((set_attendance emptyStore 1 "2025-03-04" 1 7 (some "P") "" "t1").2)
        1 "2025-03-04" [1] 7 "P" "" "t2").attendance.countP
      (att_key 1 "2025-03-04" 1 7)) = 2 := by
  decide

/-- C7 counterexample: with class 2 still referencing course 1,
`delete_course` does not refuse and does not leave the store unchanged: it
deletes the course together with the class. -/
theorem delete_course_does_not_refuse_cex :
    delete_course storeCourseWithClass 1 ≠ storeCourseWithClass
    ∧ (delete_course storeCourseWithClass 1).courses = []
    ∧ (delete_course storeCourseWithClass 1).classes = [] := by
  have h : delete_course storeCourseWithClass 1 =
      batched_delete storeCourseWithClass [Ref.cls 2, Ref.course 1] := rfl
  rw [h, batched_delete_eq_foldl]
  decide

/-- C6: deleting a student removes that student's document and exactly that
student's attendance records, leaving every other student, every other
attendance record, and all lesson logs, classes and courses unchanged. -/
theorem delete_student_scoped_cascade (s : Store) (sid : Nat)
    (hA : (s.attendance.map (fun d => d.id)).Nodup) :
    (delete_student s sid).class_students = s.class_students.filter (fun d => d.id != sid)
    ∧ (delete_student s sid).attendance = s.attendance.filter (fun d => d.student_id != sid)
    ∧ (delete_student s sid).lesson_logs = s.lesson_logs
    ∧ (delete_student s sid).classes = s.classes
    ∧ (delete_student s sid).courses = s.courses := by
  have hmaps :
      (s.attendance.filter (fun d => d.student_id == sid)).map (fun d => Ref.att d.id) =
        ((s.attendance.filter (fun d => d.student_id == sid)).map (fun d => d.id)).map Ref.att :=
    (List.map_map _ _ _).symm
  have hform : delete_student s sid =
      { deleteRef s (Ref.student sid) with
          attendance := (deleteRef s (Ref.student sid)).attendance.filter
            (fun a => !((s.attendance.filter (fun d => d.student_id == sid)).map
               (fun d => d.id)).contains a.id) } := by
    rw [delete_student, batched_delete_eq_foldl, delete_student_refs]
    rw [List.singleton_append, List.foldl_cons, hmaps, foldl_delete_att_refs]
  rw [hform]
  refine ⟨rfl, ?_, rfl, rfl, rfl⟩
  apply List.filter_congr
  intro a ha
  by_cases hb : a.student_id = sid
  · have hmemids : a.id ∈ (s.attendance.filter (fun d => d.student_id == sid)).map
        (fun d => d.id) :=
      List.mem_map_of_mem _ (List.mem_filter.mpr ⟨ha, by simpa using hb⟩)
    simp [hmemids, hb]
  · have hnotin : a.id ∉ (s.attendance.filter (fun d => d.student_id == sid)).map
        (fun d => d.id) := by
      intro hin
      obtain ⟨b, hbmem, hbid⟩ := List.mem_map.mp hin
      obtain ⟨hbmem1, hbsid⟩ := List.mem_filter.mp hbmem
      have hba : b = a := List.inj_on_of_nodup_map hA hbmem1 ha hbid
      apply hb
      rw [← hba]
      exact (beq_iff_eq.mp hbsid)
    simp [hnotin, hb]

/-- A reference contributed by any class id in the list belongs to the
child-reference fold that `delete_course_refs` builds. -/
theorem mem_delete_course_children_foldl (s : Store) (x : Ref) :
    ∀ (l : List Nat) (init : List Ref),
      (x ∈ init ∨ ∃ c ∈ l,
          x ∈ (s.class_students.filter (fun d => d.class_id == c)).map
                (fun d => Ref.student d.id)
          ∨ x ∈ (s.lesson_logs.filter (fun d => d.class_id == c)).map
                (fun d => Ref.lessonLog d.id)
          ∨ x ∈ (s.attendance.filter (fun d => d.class_id == c)).map
                (fun d => Ref.att d.id)) →
      x ∈ l.foldl (fun acc c =>
            acc
            ++ (s.class_students.filter (fun d => d.class_id == c)).map
                 (fun d => Ref.student d.id)
            ++ (s.lesson_logs.filter (fun d => d.class_id == c)).map
                 (fun d => Ref.lessonLog d.id)
            ++ (s.attendance.filter (fun d => d.class_id == c)).map
                 (fun d => Ref.att d.id)) init := by
  intro l
  induction l with
  | nil =>
      intro init h
      rcases h with h | ⟨c, hc, _⟩
      · exact h
      · simp at hc
  | cons a t ih =>
      intro init h
      simp only [List.foldl_cons]
      apply ih
      rcases h with h | ⟨c, hc, hx⟩
      · exact Or.inl (List.mem_append_left _ (List.mem_append_left _ (List.mem_append_left _ h)))
      · rcases List.mem_cons.mp hc with rfl | hct
        · refine Or.inl ?_
          rcases hx with hx | hx | hx
          · exact List.mem_append_left _ (List.mem_append_left _ (List.mem_append_right _ hx))
          · exact List.mem_append_left _ (List.mem_append_right _ hx)
          · exact List.mem_append_right _ hx
        · exact Or.inr ⟨c, hct, hx⟩

/-- C7 (amended): `delete_course` does not refuse when classes still
reference the subject; instead, when the course document exists, the cascade
leaves no Course with that identifier, no Class referencing it, and — for
every class that referenced it — no student, lesson log or attendance
document of that class. -/
theorem delete_course_cascades_classes (s : Store) (cid : Nat)
    (hex : (s.courses.find? (fun d => d.id == cid)).isSome) :
    (∀ d ∈ (delete_course s cid).courses, d.id ≠ cid)
    ∧ (∀ k ∈ (delete_course s cid).classes, k.course_id ≠ cid)
    ∧ (∀ k ∈ s.classes, k.course_id = cid →
        (∀ d ∈ (delete_course s cid).class_students, d.class_id ≠ k.id)
        ∧ (∀ d ∈ (delete_course s cid).lesson_logs, d.class_id ≠ k.id)
        ∧ (∀ d ∈ (delete_course s cid).attendance, d.class_id ≠ k.id)) := by
  obtain ⟨c, hc⟩ := Option.isSome_iff_exists.mp hex
  rw [delete_course, hc, batched_delete_eq_foldl]
  refine ⟨?_, ?_, ?_⟩
  · intro d hd heq
    obtain ⟨hmem, hnot⟩ := mem_courses_of_foldl_delete hd
    apply hnot
    rw [delete_course_refs, heq]
    have h1 : Ref.course cid ∈ [Ref.course cid] := by simp
    simp only [List.mem_append]
    tauto
  · intro k hk heq
    obtain ⟨hmem, hnot⟩ := mem_classes_of_foldl_delete hk
    apply hnot
    rw [delete_course_refs]
    have h1 : Ref.cls k.id ∈
        ((s.classes.filter (fun x => x.course_id == cid)).map (fun x => x.id)).map Ref.cls :=
      List.mem_map_of_mem _ (List.mem_map_of_mem _ (List.mem_filter.mpr ⟨hmem, by simpa using heq⟩))
    simp only [List.mem_append]
    tauto
  · intro k hkmem hkcid
    have hkid : k.id ∈ (s.classes.filter (fun x => x.course_id == cid)).map (fun x => x.id) :=
      List.mem_map_of_mem _ (List.mem_filter.mpr ⟨hkmem, by simpa using hkcid⟩)
    refine ⟨?_, ?_, ?_⟩
    · intro d hd heq
      obtain ⟨hmem, hnot⟩ := mem_students_of_foldl_delete hd
      apply hnot
      rw [delete_course_refs]
      have h1 := mem_delete_course_children_foldl s (Ref.student d.id)
        ((s.classes.filter (fun x => x.course_id == cid)).map (fun x => x.id)) []
        (Or.inr ⟨k.id, hkid, Or.inl
          (List.mem_map_of_mem _ (List.mem_filter.mpr ⟨hmem, by simpa using heq⟩))⟩)
      simp only [List.mem_append]
      tauto
    · intro d hd heq
      obtain ⟨hmem, hnot⟩ := mem_logs_of_foldl_delete hd
      apply hnot
      rw [delete_course_refs]
      have h1 := mem_delete_course_children_foldl s (Ref.lessonLog d.id)
        ((s.classes.filter (fun x => x.course_id == cid)).map (fun x => x.id)) []
        (Or.inr ⟨k.id, hkid, Or.inr (Or.inl
          (List.mem_map_of_mem _ (List.mem_filter.mpr ⟨hmem, by simpa using heq⟩)))⟩)
      simp only [List.mem_append]
      tauto
    · intro d hd heq
      obtain ⟨hmem, hnot⟩ := mem_att_of_foldl_delete hd
      apply hnot
      rw [delete_course_refs]
      have h1 := mem_delete_course_children_foldl s (Ref.att d.id)
        ((s.classes.filter (fun x => x.course_id == cid)).map (fun x => x.id)) []
        (Or.inr ⟨k.id, hkid, Or.inr (Or.inr
          (List.mem_map_of_mem _ (List.mem_filter.mpr ⟨hmem, by simpa using heq⟩)))⟩)
      simp only [List.mem_append]
      tauto

/-- One `create_or_update_lesson_log` call: exactly one record with the key
remains, it carries the just-written stripped progress/note, and
well-formedness is preserved. -/
theorem lesson_log_upsert_step (s : Store) (cid : Nat) (date : String) (p : Int)
    (prog note now : String) (hwf : WFlogs s)
    (hcnt : s.lesson_logs.countP (lesson_key cid date p) ≤ 1) :
    ((create_or_update_lesson_log s cid date p prog note now).2.lesson_logs.countP
        (lesson_key cid date p) = 1)
    ∧ (∀ d ∈ (create_or_update_lesson_log s cid date p prog note now).2.lesson_logs,
        lesson_key cid date p d = true →
          d.progress = pyStrip prog ∧ d.note = pyStrip note)
    ∧ WFlogs (create_or_update_lesson_log s cid date p prog note now).2 := by
  cases hget : get_lesson_log_unique s cid date p with
  | none =>
      have hfil : s.lesson_logs.filter (lesson_key cid date p) = [] := by
        rw [get_lesson_log_unique] at hget
        exact List.head?_eq_none_iff.mp hget
      have hzero : s.lesson_logs.countP (lesson_key cid date p) = 0 := by
        rw [List.countP_eq_length_filter, hfil]
        rfl
      simp only [create_or_update_lesson_log, hget]
      refine ⟨?_, ?_, ?_, ?_⟩
      · simp [List.countP_append, hzero, List.countP_cons, lesson_key]
      · intro d hd hkey
        rcases List.mem_append.mp hd with hold | hnew
        · exact absurd hkey (by simpa using List.countP_eq_zero.mp hzero d hold)
        · rcases List.mem_singleton.mp hnew with rfl
          exact ⟨rfl, rfl⟩
      · have hfresh : s.nextId ∉ s.lesson_logs.map (fun d => d.id) := by
          intro hin
          obtain ⟨d, hd, hdid⟩ := List.mem_map.mp hin
          exact absurd hdid (Nat.ne_of_lt (hwf.2 d hd))
        simp only [List.map_append, List.map_cons, List.map_nil]
        rw [List.nodup_append]
        exact ⟨hwf.1, List.nodup_singleton _, by simpa [List.disjoint_singleton] using hfresh⟩
      · intro d hd
        rcases List.mem_append.mp hd with hold | hnew
        · exact Nat.lt_succ_of_lt (hwf.2 d hold)
        · rcases List.mem_singleton.mp hnew with rfl
          exact Nat.lt_succ_self _
  | some e =>
      have hfk : s.lesson_logs.filter (lesson_key cid date p) = [e] := by
        rw [get_lesson_log_unique] at hget
        cases hf : s.lesson_logs.filter (lesson_key cid date p) with
        | nil => rw [hf] at hget; simp at hget
        | cons x t =>
            rw [hf] at hget
            have hxe : x = e := by simpa using hget
            subst hxe
            have hlen : (x :: t).length ≤ 1 := by
              rw [← hf, ← List.countP_eq_length_filter]
              exact hcnt
            have ht : t = [] := by
              cases t with
              | nil => rfl
              | cons y u => simp at hlen
            rw [ht]
      have heFil : e ∈ s.lesson_logs.filter (lesson_key cid date p) := by
        rw [hfk]; exact List.mem_singleton_self e
      have heMem : e ∈ s.lesson_logs := (List.mem_filter.mp heFil).1
      have heKey : lesson_key cid date p e = true := (List.mem_filter.mp heFil).2
      have hone : s.lesson_logs.countP (lesson_key cid date p) = 1 := by
        rw [List.countP_eq_length_filter, hfk]
        rfl
      simp only [create_or_update_lesson_log, hget]
      refine ⟨?_, ?_, ?_, ?_⟩
      · rw [List.countP_map]
        rw [List.countP_congr (q := lesson_key cid date p) ?_]
        · exact hone
        · intro x hx
          by_cases hid : x.id = e.id
          · have hxe : x = e := List.inj_on_of_nodup_map hwf.1 hx heMem hid
            subst hxe
            have hk : (x.class_id = cid ∧ x.date = date) ∧ x.period = p := by
              simpa [lesson_key] using heKey
            simp [Function.comp, lesson_key, hk.1.1, hk.1.2, hk.2]
          · simp [Function.comp, hid]
      · intro d' hd' hkey'
        obtain ⟨x, hx, hfx⟩ := List.mem_map.mp hd'
        by_cases hid : x.id = e.id
        · have hxe : x = e := List.inj_on_of_nodup_map hwf.1 hx heMem hid
          subst hxe
          simp only [beq_self_eq_true, if_pos] at hfx
          rw [← hfx]
          exact ⟨rfl, rfl⟩
        · rw [if_neg (by simpa using hid)] at hfx
          subst hfx
          have hxFil : x ∈ s.lesson_logs.filter (lesson_key cid date p) :=
            List.mem_filter.mpr ⟨hx, hkey'⟩
          rw [hfk] at hxFil
          exact absurd (congrArg LessonDoc.id (List.mem_singleton.mp hxFil)) hid
      · rw [List.map_map]
        have hids : s.lesson_logs.map ((fun d => d.id) ∘ fun d =>
            if d.id == e.id then
              { d with class_id := cid, date := date, period := p,
                       progress := pyStrip prog, note := pyStrip note, updated_at := now }
            else d) = s.lesson_logs.map (fun d => d.id) := by
          apply List.map_congr_left
          intro x hx
          by_cases hid : x.id = e.id <;> simp [Function.comp, hid]
        rw [hids]
        exact hwf.1
      · intro d' hd'
        obtain ⟨x, hx, hfx⟩ := List.mem_map.mp hd'
        have hsame : d'.id = x.id := by
          rw [← hfx]
          by_cases hid : x.id = e.id <;> simp [hid]
        rw [hsame]
        exact hwf.2 x hx

/-- Iterated upserts with one key: exactly one record remains, holding the
values of the last call. -/
theorem lesson_log_seq_aux (cid : Nat) (date : String) (p : Int) :
    ∀ (calls : List (String × String × String)) (c : String × String × String)
      (s : Store), calls.getLast? = some c → WFlogs s →
      s.lesson_logs.countP (lesson_key cid date p) ≤ 1 →
      ((lesson_log_calls s cid date p calls).lesson_logs.countP (lesson_key cid date p) = 1)
      ∧ (∀ d ∈ (lesson_log_calls s cid date p calls).lesson_logs,
          lesson_key cid date p d = true →
            d.progress = pyStrip c.1 ∧ d.note = pyStrip c.2.1)
  | [], c, s, hlast, _, _ => by simp at hlast
  | [a], c, s, hlast, hwf, hcnt => by
      have hac : a = c := by simpa using hlast
      subst hac
      obtain ⟨h1, h2, _⟩ := lesson_log_upsert_step s cid date p a.1 a.2.1 a.2.2 hwf hcnt
      exact ⟨h1, h2⟩
  | a :: b :: rest, c, s, hlast, hwf, hcnt => by
      have hlast1 : (b :: rest).getLast? = some c := by
        rwa [List.getLast?_cons_cons] at hlast
      obtain ⟨h1, _, h3⟩ := lesson_log_upsert_step s cid date p a.1 a.2.1 a.2.2 hwf hcnt
      have hrec := lesson_log_seq_aux cid date p (b :: rest) c
        ((create_or_update_lesson_log s cid date p a.1 a.2.1 a.2.2).2) hlast1 h3 (by omega)
      simpa [lesson_log_calls, List.foldl_cons] using hrec

/-- C10: the status stored by the single-cell attendance upsert is always in
ATTENDANCE_CHOICES: the input is stripped and upper-cased, and a missing,
empty or unrecognized status is silently stored as "U" (never rejected). -/
theorem set_attendance_status_normalized (s : Store) (cid : Nat) (date : String)
    (p : Int) (sid : Nat) (status : Option String) (remark now : String) :
    normalize_status status ∈ ATTENDANCE_CHOICES
    ∧ (match status with
       | none => normalize_status status = "U"
       | some x =>
           normalize_status status =
             if pyUpper (pyStrip x) ∈ ATTENDANCE_CHOICES then pyUpper (pyStrip x) else "U")
    ∧ (match get_attendance_unique s cid date p sid with
       | none =>
           (set_attendance s cid date p sid status remark now).2.attendance =
             s.attendance ++ [⟨s.nextId, cid, date, p, sid, normalize_status status,
                               pyStrip remark, now, now⟩]
       | some e =>
           ∀ d ∈ (set_attendance s cid date p sid status remark now).2.attendance,
             d.id = e.id → d.status = normalize_status status) := by
  refine ⟨?_, ?_, ?_⟩
  · simp only [normalize_status]
    split
    · assumption
    · decide
  · cases status with
    | none => decide
    | some x =>
        by_cases hx : x = ""
        · subst hx; decide
        · simp only [normalize_status, if_neg hx]
  · cases hget : get_attendance_unique s cid date p sid with
    | none => simp only [set_attendance, hget]
    | some e =>
        intro d hd heq
        simp only [set_attendance, hget] at hd
        obtain ⟨x, hx, hfx⟩ := List.mem_map.mp hd
        by_cases hid : x.id = e.id
        · rw [if_pos (by simpa using hid)] at hfx
          rw [← hfx]
        · rw [if_neg (by simpa using hid)] at hfx
          rw [← hfx] at heq
          exact absurd heq hid

/-- C1 counterexample: a file named "plan.doc" whose MIME type is
"application/pdf" (size 4 bytes) is accepted by `validate_pdf`, while the
claim's name-based rule rejects any file named "plan.doc": the code checks
the MIME type, never the filename. -/
theorem validate_pdf_ignores_filename_cex :
    (validate_pdf (some ⟨"plan.doc", "application/pdf", 4⟩)).1 = true
    ∧ spec_pdf_accepts ⟨"plan.doc", "application/pdf", 4⟩ = false := by
  decide

/-- C1 (amended): `validate_pdf` accepts exactly when the MIME type ends in
"/pdf" (or equals "application/pdf") and the size is at most 10,485,760
bytes; a missing file is rejected; and `upload_pdf` raises the validation
message on a rejected file — before any storage write — and performs the
single storage write only on an accepted one. -/
theorem validate_pdf_mime_and_size_characterization (f : UploadedFile)
    (year semester : Int) (subject_name : String) (ts : Nat) :
    ((validate_pdf (some f)).1 =
      ((pyEndsWith f.mime "/pdf" || f.mime == "application/pdf")
        && decide (f.size ≤ 10485760)))
    ∧ (validate_pdf none).1 = false
    ∧ (upload_pdf (some f) year semester subject_name ts =
        if (validate_pdf (some f)).1 then
          Except.ok (pdf_storage_path year semester subject_name ts f.name)
        else Except.error (validate_pdf (some f)).2) := by
  refine ⟨?_, rfl, ?_⟩
  · rw [validate_pdf]
    by_cases hs : f.size > 10 * 1024 * 1024
    · have hd : decide (f.size ≤ 10485760) = false := by
        simp only [decide_eq_false_iff_not]
        omega
      cases hm : pyEndsWith f.mime "/pdf" <;> by_cases hm2 : f.mime = "application/pdf" <;>
        simp [hm, hm2, hs, hd]
    · have hd : decide (f.size ≤ 10485760) = true := by
        simp only [decide_eq_true_eq]
        omega
      cases hm : pyEndsWith f.mime "/pdf" <;> by_cases hm2 : f.mime = "application/pdf" <;>
        simp [hm, hm2, hs, hd]
  · cases hv : validate_pdf (some f) with
    | mk ok msg =>
        cases ok
        · simp [upload_pdf, hv]
        · simp [upload_pdf, hv]

/-- One import row preserves the batch invariants: staged documents have
non-blank stripped number and name and timestamps `now`, their numbers are
pairwise distinct, and every staged number is in `seen`. -/
theorem import_step_preserves (s : Store) (cid : Nat) (now : String)
    (acc : ImportAcc) (r : String × String)
    (h1 : ∀ d ∈ acc.batch,
        d.student_no ≠ "" ∧ d.name ≠ "" ∧ d.created_at = now ∧ d.updated_at = now)
    (h2 : (acc.batch.map (fun d => d.student_no)).Nodup)
    (h3 : ∀ d ∈ acc.batch, d.student_no ∈ acc.seen) :
    (∀ d ∈ (import_step s cid now acc r).batch,
        d.student_no ≠ "" ∧ d.name ≠ "" ∧ d.created_at = now ∧ d.updated_at = now)
    ∧ ((import_step s cid now acc r).batch.map (fun d => d.student_no)).Nodup
    ∧ (∀ d ∈ (import_step s cid now acc r).batch,
        d.student_no ∈ (import_step s cid now acc r).seen) := by
  rw [import_step]
  split
  · exact ⟨h1, h2, h3⟩
  · split
    · exact ⟨h1, h2, h3⟩
    · rename_i hblank hseen
      split
      · refine ⟨h1, h2, ?_⟩
        intro d hd
        exact List.mem_append_left _ (h3 d hd)
      · rename_i hex
        have hblank1 : ¬(pyStrip r.1 = "") ∧ ¬(pyStrip r.2 = "") := by
          constructor <;> intro h <;> simp [h] at hblank
        have hsno : pyStrip r.1 ∉ acc.seen := by
          intro h
          simp [h] at hseen
        refine ⟨?_, ?_, ?_⟩
        · intro d hd
          rcases List.mem_append.mp hd with hold | hnew
          · exact h1 d hold
          · rcases List.mem_singleton.mp hnew with rfl
            exact ⟨hblank1.1, hblank1.2, rfl, rfl⟩
        · simp only [List.map_append, List.map_cons, List.map_nil]
          rw [List.nodup_append]
          refine ⟨h2, List.nodup_singleton _, ?_⟩
          intro a ha hb
          rcases List.mem_singleton.mp hb with rfl
          obtain ⟨d, hd, hdno⟩ := List.mem_map.mp ha
          exact hsno (hdno ▸ h3 d hd)
        · intro d hd
          rcases List.mem_append.mp hd with hold | hnew
          · exact List.mem_append_left _ (h3 d hold)
          · rcases List.mem_singleton.mp hnew with rfl
            exact List.mem_append_right _ (List.mem_singleton_self _)

/-- The invariants of `import_step_preserves`, over the whole fold. -/
theorem import_fold_invariant (s : Store) (cid : Nat) (now : String)
    (rows : List (String × String)) :
    ∀ acc : ImportAcc,
      (∀ d ∈ acc.batch,
          d.student_no ≠ "" ∧ d.name ≠ "" ∧ d.created_at = now ∧ d.updated_at = now)
      → (acc.batch.map (fun d => d.student_no)).Nodup
      → (∀ d ∈ acc.batch, d.student_no ∈ acc.seen)
      → (∀ d ∈ (rows.foldl (import_step s cid now) acc).batch,
            d.student_no ≠ "" ∧ d.name ≠ "" ∧ d.created_at = now ∧ d.updated_at = now)
        ∧ ((rows.foldl (import_step s cid now) acc).batch.map
            (fun d => d.student_no)).Nodup := by
  induction rows with
  | nil => intro acc h1 h2 _; exact ⟨h1, h2⟩
  | cons r rs ih =>
      intro acc h1 h2 h3
      obtain ⟨g1, g2, g3⟩ := import_step_preserves s cid now acc r h1 h2 h3
      simpa only [List.foldl_cons] using ih (import_step s cid now acc r) g1 g2 g3

/-- C8: CSV import rejects every row with a blank (stripped) student number
or name, collapses in-batch duplicate numbers to the first occurrence, never
touches the pre-existing documents, and on the claim's concrete batch
[("001","Kim"), ("002","Lee"), ("001","Park")] into an empty class stores
exactly the two students 001 ↦ Kim and 002 ↦ Lee. -/
theorem import_students_blank_and_duplicate_handling (s : Store) (cid : Nat)
    (rows : List (String × String)) (now : String) :
    ((import_students s cid rows now).class_students.take s.class_students.length
       = s.class_students)
    ∧ (∀ d ∈ (import_students s cid rows now).class_students.drop s.class_students.length,
         d.student_no ≠ "" ∧ d.name ≠ "")
    ∧ (((import_students s cid rows now).class_students.drop
          s.class_students.length).map (fun d => d.student_no)).Nodup
    ∧ ((import_students storeEmptyClass 1
          [("001", "Kim"), ("002", "Lee"), ("001", "Park")] "t").class_students.map
            (fun d => (d.student_no, d.name)) = [("001", "Kim"), ("002", "Lee")])
    ∧ (import_students storeEmptyClass 1
          [("001", "Kim"), ("002", "Lee"), ("001", "Park")] "t").class_students.length = 2 := by
  have hinv := import_fold_invariant s cid now rows ⟨[], [], s.nextId⟩
    (by intro d hd; simp at hd) (by simp) (by intro d hd; simp at hd)
  simp only [import_students]
  refine ⟨List.take_left _ _, ?_, ?_, by decide, by decide⟩
  · rw [List.drop_left]
    intro d hd
    exact ⟨(hinv.1 d hd).1, (hinv.1 d hd).2.1⟩
  · rw [List.drop_left]
    exact hinv.2

/-- Timestamp behaviour of the course upsert. -/
theorem course_upsert_timestamps (s : Store) (y sem : Int) (nm : String)
    (pdf : Option String) (now : String) :
    match get_course_by_unique s y sem nm with
    | none =>
        (create_or_update_course s y sem nm pdf now).2.courses.take s.courses.length
          = s.courses
        ∧ ∀ d ∈ (create_or_update_course s y sem nm pdf now).2.courses.drop
            s.courses.length, d.created_at = now ∧ d.updated_at = now
    | some e =>
        (create_or_update_course s y sem nm pdf now).2.courses.map (fun d => d.created_at)
          = s.courses.map (fun d => d.created_at)
        ∧ ∀ d ∈ (create_or_update_course s y sem nm pdf now).2.courses,
            d.id = e.id → d.updated_at = now := by
  cases hget : get_course_by_unique s y sem nm with
  | none =>
      simp only [create_or_update_course, hget]
      refine ⟨List.take_left _ _, ?_⟩
      rw [List.drop_left]
      intro d hd
      rcases List.mem_singleton.mp hd with rfl
      exact ⟨rfl, rfl⟩
  | some e =>
      simp only [create_or_update_course, hget]
      constructor
      · rw [List.map_map]
        apply List.map_congr_left
        intro x _
        by_cases hid : x.id = e.id
        · cases hb : pdf_provided pdf <;> simp [Function.comp, hid, hb]
        · simp [Function.comp, hid]
      · intro d hd heq
        obtain ⟨x, hx, hfx⟩ := List.mem_map.mp hd
        by_cases hid : x.id = e.id
        · rw [if_pos (by simpa using hid)] at hfx
          cases hb : pdf_provided pdf <;> rw [hb] at hfx <;> simp [← hfx]
        · rw [if_neg (by simpa using hid)] at hfx
          rw [← hfx] at heq
          exact absurd heq hid

/-- Timestamp behaviour of the class upsert. -/
theorem class_upsert_timestamps (s : Store) (kc : Nat) (lbl : String) (y sem : Int)
    (sch : Option (List (String × Int))) (kid : Option Nat) (now : String) :
    match kid with
    | none =>
        (create_or_update_class s kc lbl y sem sch kid now).2.classes.take s.classes.length
          = s.classes
        ∧ ∀ d ∈ (create_or_update_class s kc lbl y sem sch kid now).2.classes.drop
            s.classes.length, d.created_at = now ∧ d.updated_at = now
    | some cid2 =>
        (create_or_update_class s kc lbl y sem sch kid now).2.classes.map
            (fun d => d.created_at) = s.classes.map (fun d => d.created_at)
        ∧ ∀ d ∈ (create_or_update_class s kc lbl y sem sch kid now).2.classes,
            d.id = cid2 → d.updated_at = now := by
  cases kid with
  | none =>
      simp only [create_or_update_class]
      refine ⟨List.take_left _ _, ?_⟩
      rw [List.drop_left]
      intro d hd
      rcases List.mem_singleton.mp hd with rfl
      exact ⟨rfl, rfl⟩
  | some cid2 =>
      simp only [create_or_update_class]
      constructor
      · rw [List.map_map]
        apply List.map_congr_left
        intro x _
        by_cases hid : x.id = cid2
        · cases sch <;> simp [Function.comp, hid]
        · simp [Function.comp, hid]
      · intro d hd heq
        obtain ⟨x, hx, hfx⟩ := List.mem_map.mp hd
        by_cases hid : x.id = cid2
        · rw [if_pos (by simpa using hid)] at hfx
          cases sch <;> simp [← hfx]
        · rw [if_neg (by simpa using hid)] at hfx
          rw [← hfx] at heq
          exact absurd heq hid

/-- Timestamp behaviour of the student upsert. -/
theorem student_upsert_timestamps (s : Store) (scid : Nat) (sno sname : String)
    (sid0 : Option Nat) (now : String) :
    match sid0 with
    | none =>
        (create_or_update_student s scid sno sname sid0 now).2.class_students.take
            s.class_students.length = s.class_students
        ∧ ∀ d ∈ (create_or_update_student s scid sno sname sid0 now).2.class_students.drop
            s.class_students.length, d.created_at = now ∧ d.updated_at = now
    | some sid =>
        (create_or_update_student s scid sno sname sid0 now).2.class_students.map
            (fun d => d.created_at) = s.class_students.map (fun d => d.created_at)
        ∧ ∀ d ∈ (create_or_update_student s scid sno sname sid0 now).2.class_students,
            d.id = sid → d.updated_at = now := by
  cases sid0 with
  | none =>
      simp only [create_or_update_student]
      refine ⟨List.take_left _ _, ?_⟩
      rw [List.drop_left]
      intro d hd
      rcases List.mem_singleton.mp hd with rfl
      exact ⟨rfl, rfl⟩
  | some sid =>
      simp only [create_or_update_student]
      constructor
      · rw [List.map_map]
        apply List.map_congr_left
        intro x _
        by_cases hid : x.id = sid <;> simp [Function.comp, hid]
      · intro d hd heq
        obtain ⟨x, hx, hfx⟩ := List.mem_map.mp hd
        by_cases hid : x.id = sid
        · rw [if_pos (by simpa using hid)] at hfx
          simp [← hfx]
        · rw [if_neg (by simpa using hid)] at hfx
          rw [← hfx] at heq
          exact absurd heq hid

/-- Timestamp behaviour of the lesson-log upsert. -/
theorem lesson_upsert_timestamps (s : Store) (lcid : Nat) (ld : String) (lp : Int)
    (lprog lnote now : String) :
    match get_lesson_log_unique s lcid ld lp with
    | none =>
        (create_or_update_lesson_log s lcid ld lp lprog lnote now).2.lesson_logs.take
            s.lesson_logs.length = s.lesson_logs
        ∧ ∀ d ∈ (create_or_update_lesson_log s lcid ld lp lprog lnote now).2.lesson_logs.drop
            s.lesson_logs.length, d.created_at = now ∧ d.updated_at = now
    | some e =>
        (create_or_update_lesson_log s lcid ld lp lprog lnote now).2.lesson_logs.map
            (fun d => d.created_at) = s.lesson_logs.map (fun d => d.created_at)
        ∧ ∀ d ∈ (create_or_update_lesson_log s lcid ld lp lprog lnote now).2.lesson_logs,
            d.id = e.id → d.updated_at = now := by
  cases hget : get_lesson_log_unique s lcid ld lp with
  | none =>
      simp only [create_or_update_lesson_log, hget]
      refine ⟨List.take_left _ _, ?_⟩
      rw [List.drop_left]
      intro d hd
      rcases List.mem_singleton.mp hd with rfl
      exact ⟨rfl, rfl⟩
  | some e =>
      simp only [create_or_update_lesson_log, hget]
      constructor
      · rw [List.map_map]
        apply List.map_congr_left
        intro x _
        by_cases hid : x.id = e.id <;> simp [Function.comp, hid]
      · intro d hd heq
        obtain ⟨x, hx, hfx⟩ := List.mem_map.mp hd
        by_cases hid : x.id = e.id
        · rw [if_pos (by simpa using hid)] at hfx
          simp [← hfx]
        · rw [if_neg (by simpa using hid)] at hfx
          rw [← hfx] at heq
          exact absurd heq hid

/-- Timestamp behaviour of the attendance upsert. -/
theorem attendance_upsert_timestamps (s : Store) (acid : Nat) (ad : String) (ap : Int)
    (asid : Nat) (ast : Option String) (arem now : String) :
    match get_attendance_unique s acid ad ap asid with
    | none =>
        (set_attendance s acid ad ap asid ast arem now).2.attendance.take
            s.attendance.length = s.attendance
        ∧ ∀ d ∈ (set_attendance s acid ad ap asid ast arem now).2.attendance.drop
            s.attendance.length, d.created_at = now ∧ d.updated_at = now
    | some e =>
        (set_attendance s acid ad ap asid ast arem now).2.attendance.map
            (fun d => d.created_at) = s.attendance.map (fun d => d.created_at)
        ∧ ∀ d ∈ (set_attendance s acid ad ap asid ast arem now).2.attendance,
            d.id = e.id → d.updated_at = now := by
  cases hget : get_attendance_unique s acid ad ap asid with
  | none =>
      simp only [set_attendance, hget]
      refine ⟨List.take_left _ _, ?_⟩
      rw [List.drop_left]
      intro d hd
      rcases List.mem_singleton.mp hd with rfl
      exact ⟨rfl, rfl⟩
  | some e =>
      simp only [set_attendance, hget]
      constructor
      · rw [List.map_map]
        apply List.map_congr_left
        intro x _
        by_cases hid : x.id = e.id <;> simp [Function.comp, hid]
      · intro d hd heq
        obtain ⟨x, hx, hfx⟩ := List.mem_map.mp hd
        by_cases hid : x.id = e.id
        · rw [if_pos (by simpa using hid)] at hfx
          simp [← hfx]
        · rw [if_neg (by simpa using hid)] at hfx
          rw [← hfx] at heq
          exact absurd heq hid

/-- Every document the bulk attendance apply stages carries both timestamps. -/
theorem bulk_fold_timestamps (cid : Nat) (date : String) (sid : Nat)
    (st rem now : String) (periods : List Int) :
    ∀ init : List AttDoc × Nat,
      (∀ d ∈ init.1, d.created_at = now ∧ d.updated_at = now) →
      ∀ d ∈ (periods.foldl
          (fun (acc : List AttDoc × Nat) p =>
            (acc.1 ++ [⟨acc.2, cid, date, p, sid, st, rem, now, now⟩], acc.2 + 1)) init).1,
        d.created_at = now ∧ d.updated_at = now := by
  induction periods with
  | nil => intro init h; exact h
  | cons p ps ih =>
      intro init h
      simp only [List.foldl_cons]
      apply ih
      intro d hd
      rcases List.mem_append.mp hd with hold | hnew
      · exact h d hold
      · rcases List.mem_singleton.mp hnew with rfl
        exact ⟨rfl, rfl⟩

/-- C9: every write on the five collections sets the updated-timestamp on the
written document; the created-timestamp is set exactly on newly created
documents and never rewritten by updates. Covers the five upserts, the CSV
import, and the bulk attendance apply. -/
theorem writes_set_timestamps (s : Store) (now : String)
    (y sem : Int) (nm : String) (pdf : Option String)
    (kc : Nat) (lbl : String) (sch : Option (List (String × Int))) (kid : Option Nat)
    (scid : Nat) (sno sname : String) (sid0 : Option Nat)
    (lcid : Nat) (ld : String) (lp : Int) (lprog lnote : String)
    (acid : Nat) (ad : String) (ap : Int) (asid : Nat) (ast : Option String) (arem : String)
    (rows : List (String × String)) (bps : List Int) (bst brem : String) :
    (match get_course_by_unique s y sem nm with
     | none =>
         (create_or_update_course s y sem nm pdf now).2.courses.take s.courses.length
           = s.courses
         ∧ ∀ d ∈ (create_or_update_course s y sem nm pdf now).2.courses.drop
             s.courses.length, d.created_at = now ∧ d.updated_at = now
     | some e =>
         (create_or_update_course s y sem nm pdf now).2.courses.map (fun d => d.created_at)
           = s.courses.map (fun d => d.created_at)
         ∧ ∀ d ∈ (create_or_update_course s y sem nm pdf now).2.courses,
             d.id = e.id → d.updated_at = now)
    ∧ (match kid with
       | none =>
           (create_or_update_class s kc lbl y sem sch kid now).2.classes.take
               s.classes.length = s.classes
           ∧ ∀ d ∈ (create_or_update_class s kc lbl y sem sch kid now).2.classes.drop
               s.classes.length, d.created_at = now ∧ d.updated_at = now
       | some cid2 =>
           (create_or_update_class s kc lbl y sem sch kid now).2.classes.map
               (fun d => d.created_at) = s.classes.map (fun d => d.created_at)
           ∧ ∀ d ∈ (create_or_update_class s kc lbl y sem sch kid now).2.classes,
               d.id = cid2 → d.updated_at = now)
    ∧ (match sid0 with
       | none =>
           (create_or_update_student s scid sno sname sid0 now).2.class_students.take
               s.class_students.length = s.class_students
           ∧ ∀ d ∈ (create_or_update_student s scid sno sname sid0 now).2.class_students.drop
               s.class_students.length, d.created_at = now ∧ d.updated_at = now
       | some sid =>
           (create_or_update_student s scid sno sname sid0 now).2.class_students.map
               (fun d => d.created_at) = s.class_students.map (fun d => d.created_at)
           ∧ ∀ d ∈ (create_or_update_student s scid sno sname sid0 now).2.class_students,
               d.id = sid → d.updated_at = now)
    ∧ (match get_lesson_log_unique s lcid ld lp with
       | none =>
           (create_or_update_lesson_log s lcid ld lp lprog lnote now).2.lesson_logs.take
               s.lesson_logs.length = s.lesson_logs
           ∧ ∀ d ∈ (create_or_update_lesson_log s lcid ld lp lprog
               lnote now).2.lesson_logs.drop s.lesson_logs.length,
               d.created_at = now ∧ d.updated_at = now
       | some e =>
           (create_or_update_lesson_log s lcid ld lp lprog lnote now).2.lesson_logs.map
               (fun d => d.created_at) = s.lesson_logs.map (fun d => d.created_at)
           ∧ ∀ d ∈ (create_or_update_lesson_log s lcid ld lp lprog lnote now).2.lesson_logs,
               d.id = e.id → d.updated_at = now)
    ∧ (match get_attendance_unique s acid ad ap asid with
       | none =>
           (set_attendance s acid ad ap asid ast arem now).2.attendance.take
               s.attendance.length = s.attendance
           ∧ ∀ d ∈ (set_attendance s acid ad ap asid ast arem now).2.attendance.drop
               s.attendance.length, d.created_at = now ∧ d.updated_at = now
       | some e =>
           (set_attendance s acid ad ap asid ast arem now).2.attendance.map
               (fun d => d.created_at) = s.attendance.map (fun d => d.created_at)
           ∧ ∀ d ∈ (set_attendance s acid ad ap asid ast arem now).2.attendance,
               d.id = e.id → d.updated_at = now)
    ∧ (∀ d ∈ (import_students s scid rows now).class_students.drop s.class_students.length,
         d.created_at = now ∧ d.updated_at = now)
    ∧ (∀ d ∈ (bulk_apply_attendance s acid ad bps asid bst brem now).attendance.drop
         s.attendance.length, d.created_at = now ∧ d.updated_at = now) := by
  refine ⟨course_upsert_timestamps s y sem nm pdf now,
          class_upsert_timestamps s kc lbl y sem sch kid now,
          student_upsert_timestamps s scid sno sname sid0 now,
          lesson_upsert_timestamps s lcid ld lp lprog lnote now,
          attendance_upsert_timestamps s acid ad ap asid ast arem now, ?_, ?_⟩
  · have hinv := import_fold_invariant s scid now rows ⟨[], [], s.nextId⟩
      (by intro d hd; simp at hd) (by simp) (by intro d hd; simp at hd)
    simp only [import_students]
    rw [List.drop_left]
    intro d hd
    exact ⟨(hinv.1 d hd).2.2.1, (hinv.1 d hd).2.2.2⟩
  · simp only [bulk_apply_attendance]
    rw [List.drop_left]
    apply bulk_fold_timestamps
    intro d hd
    simp at hd

/-- C5: for every non-empty sequence of lesson-log upserts with one fixed
(class, date, period) key, starting from a store with at most one record for
that key, exactly one record with the key exists afterwards and it holds the
stripped progress/note of the last call; moreover an upsert returns the
existing record's identifier when one exists (in-place overwrite under the
same identity), else the fresh identifier. -/
theorem lesson_log_upsert_seq_unique_last_wins (s : Store) (cid : Nat) (date : String)
    (p : Int) (calls : List (String × String × String)) (c : String × String × String)
    (prog note now : String)
    (hlast : calls.getLast? = some c) (hwf : WFlogs s)
    (hcnt : s.lesson_logs.countP (lesson_key cid date p) ≤ 1) :
    ((lesson_log_calls s cid date p calls).lesson_logs.countP (lesson_key cid date p) = 1)
    ∧ (∀ d ∈ (lesson_log_calls s cid date p calls).lesson_logs,
        lesson_key cid date p d = true →
          d.progress = pyStrip c.1 ∧ d.note = pyStrip c.2.1)
    ∧ (match get_lesson_log_unique s cid date p with
       | some e => (create_or_update_lesson_log s cid date p prog note now).1 = e.id
       | none => (create_or_update_lesson_log s cid date p prog note now).1 = s.nextId) := by
  obtain ⟨h1, h2⟩ := lesson_log_seq_aux cid date p calls c s hlast hwf hcnt
  refine ⟨h1, h2, ?_⟩
  cases hget : get_lesson_log_unique s cid date p <;>
    simp [create_or_update_lesson_log, hget]

/-- Witness for the lesson-log upsert-sequence theorem at a concrete store
holding one record for the key, with two calls. -/
theorem lesson_log_upsert_seq_unique_last_wins_witness :
    ((lesson_log_calls storeOneLessonLog 1 "2025-03-04" 1
        [("a", "b", "t1"), (" z ", "w", "t2")]).lesson_logs.countP
          (lesson_key 1 "2025-03-04" 1) = 1)
    ∧ (∀ d ∈ (lesson_log_calls storeOneLessonLog 1 "2025-03-04" 1
          [("a", "b", "t1"), (" z ", "w", "t2")]).lesson_logs,
        lesson_key 1 "2025-03-04" 1 d = true →
          d.progress = pyStrip (" z ", "w", "t2").1 ∧ d.note = pyStrip (" z ", "w", "t2").2.1)
    ∧ (match get_lesson_log_unique storeOneLessonLog 1 "2025-03-04" 1 with
       | some e =>
           (create_or_update_lesson_log storeOneLessonLog 1 "2025-03-04" 1 "q" "r" "t3").1
             = e.id
       | none =>
           (create_or_update_lesson_log storeOneLessonLog 1 "2025-03-04" 1 "q" "r" "t3").1
             = storeOneLessonLog.nextId) :=
  lesson_log_upsert_seq_unique_last_wins storeOneLessonLog 1 "2025-03-04" 1
    [("a", "b", "t1"), (" z ", "w", "t2")] (" z ", "w", "t2") "q" "r" "t3"
    rfl ⟨by decide, by decide⟩ (by decide)

/-- Witness for the student-delete frame theorem at a concrete store. -/
theorem delete_student_scoped_cascade_witness :
    (delete_student storeTwoStudents 2).class_students =
        storeTwoStudents.class_students.filter (fun d => d.id != 2)
    ∧ (delete_student storeTwoStudents 2).attendance =
        storeTwoStudents.attendance.filter (fun d => d.student_id != 2)
    ∧ (delete_student storeTwoStudents 2).lesson_logs = storeTwoStudents.lesson_logs
    ∧ (delete_student storeTwoStudents 2).classes = storeTwoStudents.classes
    ∧ (delete_student storeTwoStudents 2).courses = storeTwoStudents.courses :=
  delete_student_scoped_cascade storeTwoStudents 2 (by decide)

/-- Witness for the course-delete cascade theorem at a concrete store whose
class carries a student, a lesson log and an attendance record. -/
theorem delete_course_cascades_classes_witness :
    (∀ d ∈ (delete_course storeCourseClassChildren 1).courses, d.id ≠ 1)
    ∧ (∀ k ∈ (delete_course storeCourseClassChildren 1).classes, k.course_id ≠ 1)
    ∧ (∀ k ∈ storeCourseClassChildren.classes, k.course_id = 1 →
        (∀ d ∈ (delete_course storeCourseClassChildren 1).class_students, d.class_id ≠ k.id)
        ∧ (∀ d ∈ (delete_course storeCourseClassChildren 1).lesson_logs, d.class_id ≠ k.id)
        ∧ (∀ d ∈ (delete_course storeCourseClassChildren 1).attendance, d.class_id ≠ k.id)) :=
  delete_course_cascades_classes storeCourseClassChildren 1 (by decide)
